import Mathlib

/-!
The lifecycle of `main.go` in custom-script-extension-linux.

A shallow embedding of `src/main.go` (`main`, `parseCmd`, `printUsage`) and the
properties of its execution lifecycle.

The program is sequential Go code with effects: it prints with `fmt`, logs
through a `log.Context`, asks `vmextension.GetHandlerEnv` for the handler
environment, calls `reportStatus`, calls the handler of the resolved command
and may leave through `os.Exit`.  The embedding threads a process state `Proc`
(the package variable `cmds` and the effects performed so far, oldest first)
through the functions, and a function that may call `os.Exit` returns an
`Outcome` next to the state.  Everything the program reads from outside
(`os.Args`, the version strings, the result of `GetHandlerEnv`, the outcome of
a status write, the order of a `range` over a map) is a field of `World`.
-/

namespace CustomScript

/-! ## Data model -/

/-- Values that `main.go` hands to the logger: strings, the `int` sequence
number, an `error` (kept as its `Error()` text) and the `log.DefaultTimestamp`
valuer, which the logger evaluates when it writes the line. -/
inductive LogVal where
  | str (s : String)
  | int (n : Int)
  | err (e : String)
  | timestamp
  deriving DecidableEq, Repr

/-- Key/value pairs accumulated by `ctx.With(...)`, oldest first. -/
abbrev LogCtx := List (String × LogVal)

/-- Status codes of package `status` used by `main`. -/
inductive StatusType where
  | StatusTransitioning
  | StatusSuccess
  | StatusError
  deriving DecidableEq, Repr

/-- The part of `vmextension.HandlerEnvironment` that `main.go` reads. -/
structure HandlerEnv where
  SeqNo : Int
  deriving DecidableEq, Repr

/-- A Go `error` returned by a collaborator, kept as its `Error()` text;
`none` is `nil`. -/
abbrev GoError := Option String

/-- How the call `cmd.f(ctx, hEnv)` ends.  The handlers are not in
`src/main.go`, and `main` calls the handler with no `recover` around it: the
handler returns an `error` to `main`, or it does not return.  A handler that
does not return ends the process itself with an exit code (`os.Exit(code)`, or
a panic, on which the Go runtime exits with code 2), or it never ends
(`none`). -/
inductive HandlerResult where
  | returned (err : GoError)
  | noReturn (exitCode : Option Int)
  deriving DecidableEq, Repr

/-- The `cmd` struct as `main.go` uses it: `cmd.name` and the handler `cmd.f`,
called as `cmd.f(ctx, hEnv)`.  What the handler does on the way is summed up in
the one effect `Event.handler`. -/
structure Cmd where
  name : String
  f : LogCtx → HandlerEnv → HandlerResult

/-- A Status Record: status code, command label, message, and the sequence
number of the slot it is written to. -/
structure StatusRecord where
  status : StatusType
  operation : String
  message : String
  seqNo : Int
  deriving DecidableEq, Repr

/-- One effect of the process, in the order performed. -/
inductive Event where
  /-- The call `fmt.Printf(format, operands...)`; operands are strings. -/
  | printf (format : String) (operands : List String)
  /-- The call `fmt.Println(operands...)`. -/
  | println (operands : List String)
  /-- The call `ctx.Log(...)`: the context pairs followed by the call's pairs. -/
  | log (line : LogCtx)
  /-- The call `vmextension.GetHandlerEnv()`. -/
  | getHandlerEnv
  /-- The call `reportStatus(ctx, hEnv, t, cmd, msg)`, with the record it is
  asked to report. -/
  | reportStatus (r : StatusRecord)
  /-- The call `cmd.f(ctx, hEnv)` of the command named `name`. -/
  | handler (name : String) (ctx : LogCtx) (hEnv : HandlerEnv)
  deriving DecidableEq, Repr

/-- The Go map `cmds` (`map[string]cmd`): its entries, no key twice. -/
structure CmdTable where
  entries : List (String × Cmd)
  nodup : (entries.map Prod.fst).Nodup

/-- The keys of the table. -/
def CmdTable.keys (t : CmdTable) : List String := t.entries.map Prod.fst

/-- Go `len(m)`, an `int`. -/
def CmdTable.len (t : CmdTable) : Int := (t.entries.length : Int)

/-- Go `v, ok := m[k]`: `some v` when `ok`. -/
def CmdTable.lookup (t : CmdTable) (k : String) : Option Cmd := t.entries.lookup k

/-- What the process reads from outside during one run. -/
structure World where
  /-- The variable `os.Args`. -/
  osArgs : List String
  /-- Package `os`: `Args` starts with the program name, so `os.Args[0]` exists. -/
  osArgs_ne : osArgs ≠ []
  /-- The result of `VersionString()`. -/
  VersionString : String
  /-- The result of `DetailedVersionString()`. -/
  DetailedVersionString : String
  /-- The library function `strings.ToLower`. -/
  ToLower : String → String
  /-- The result of `vmextension.GetHandlerEnv()`. -/
  GetHandlerEnv : Except String HandlerEnv
  /-- The outcome of writing a record to the status location (`none`: written). -/
  saveStatus : StatusRecord → GoError
  /-- The order in which a `range` over a map with the given keys visits them. -/
  rangeOrder : List String → List String
  /-- A `range` over a map visits every key once. -/
  rangeOrder_perm : ∀ ks, (rangeOrder ks).Perm ks

/-- The state of the process: the package variable `cmds` and the effects
performed so far, oldest first. -/
structure Proc where
  cmds : CmdTable
  events : List Event

/-- How a function that may call `os.Exit` ends: it returns a value, or the
process has exited with a code. -/
inductive Outcome (α : Type) where
  | ret (a : α)
  | exit (code : Int)

/-- Perform one effect. -/
def Proc.emit (p : Proc) (e : Event) : Proc :=
  ⟨p.cmds, p.events ++ [e]⟩

/-! ## `printUsage` -/

/-- The loop `for k := range cmds` of `printUsage`, over the keys still to
visit; `i` is the loop counter. -/
def printUsageLoop : List String → Int → Proc → Proc
  | [], _, p => p
  | k :: ks, i, p =>
    let p := p.emit (Event.printf k [])
    let p := if i ≠ p.cmds.len - 1 then p.emit (Event.printf "|" []) else p
    printUsageLoop ks (i + 1) p

/-- The function `printUsage(args)`: it reads `os.Args[0]`, not `args`. -/
def printUsage (w : World) (_args : List String) (p : Proc) : Proc :=
  let p := p.emit (Event.printf "Usage: %s " [w.osArgs.head w.osArgs_ne])
  let p := printUsageLoop (w.rangeOrder p.cmds.keys) 0 p
  let p := p.emit (Event.println [])
  p.emit (Event.println [w.DetailedVersionString])

/-! ## `parseCmd` -/

/-- The function `parseCmd(args)`: it tests `len(os.Args)` and looks up
`os.Args[1]`; `args` only travels on to `printUsage`. -/
def parseCmd (w : World) (args : List String) (p : Proc) : Proc × Outcome Cmd :=
  if h : w.osArgs.length ≠ 2 then
    let p := printUsage w args p
    let p := p.emit (Event.println ["Incorrect usage."])
    (p, Outcome.exit 1)
  else
    let op := w.osArgs.get ⟨1, by omega⟩
    match p.cmds.lookup op with
    | none =>
      let p := printUsage w args p
      let p := p.emit (Event.printf "Incorrect command: %q\n" [op])
      (p, Outcome.exit 1)
    | some cmd => (p, Outcome.ret cmd)

/-! ## `reportStatus` -/

/-- Modelled from the spec: `reportStatus(ctx, hEnv, t, cmd, msg)` is called by
`main` and is not in `src/main.go`.  Spec 4.5: it writes the Status Record
(status code, command label, message) to the report of the sequence number; the
write is best effort: a failure is logged and does not end the process.  The
first effect is the call itself, with the record; `w.saveStatus` tells whether
the write succeeds. -/
def reportStatus (w : World) (ctx : LogCtx) (hEnv : HandlerEnv) (t : StatusType)
    (cmd : Cmd) (msg : String) (p : Proc) : Proc :=
  let r : StatusRecord := ⟨t, cmd.name, msg, hEnv.SeqNo⟩
  let p := p.emit (Event.reportStatus r)
  match w.saveStatus r with
  | none => p
  | some e =>
    p.emit (Event.log (ctx ++ [("event", LogVal.str "failed to save handler status"),
      ("error", LogVal.err e)]))

/-! ## `main` -/

/-- The function `main`; the second component is the exit code of the process
(`some 0` when `main` returns, `none` when the process never ends). -/
def main (w : World) (p : Proc) : Proc × Option Int :=
  let ctx : LogCtx := [("time", LogVal.timestamp), ("version", LogVal.str w.VersionString)]
  match parseCmd w w.osArgs p with
  | (p, Outcome.exit code) => (p, some code)
  | (p, Outcome.ret cmd) =>
    let ctx := ctx ++ [("operation", LogVal.str (w.ToLower cmd.name))]
    let p := p.emit Event.getHandlerEnv
    match w.GetHandlerEnv with
    | Except.error err =>
      let p := p.emit (Event.log (ctx ++ [("message", LogVal.str "failed to parse handlerenv"),
        ("error", LogVal.err err)]))
      (p, some 1)
    | Except.ok hEnv =>
      let ctx := ctx ++ [("seq", LogVal.int hEnv.SeqNo)]
      let p := p.emit (Event.log (ctx ++ [("event", LogVal.str "start")]))
      let p := reportStatus w ctx hEnv StatusType.StatusTransitioning cmd "" p
      let p := p.emit (Event.handler cmd.name ctx hEnv)
      match cmd.f ctx hEnv with
      | HandlerResult.noReturn ending => (p, ending)
      | HandlerResult.returned (some err) =>
        let p := p.emit (Event.log (ctx ++ [("event", LogVal.str "failed to handle"),
          ("error", LogVal.err err)]))
        let p := reportStatus w ctx hEnv StatusType.StatusError cmd err p
        (p, some 1)
      | HandlerResult.returned none =>
        let p := reportStatus w ctx hEnv StatusType.StatusSuccess cmd "" p
        let p := p.emit (Event.log (ctx ++ [("event", LogVal.str "end")]))
        (p, some 0)

/-! ## Package variables of `main.go` -/

/-- The variable `dataDir`. -/
def dataDir : String := "/var/lib/azure/custom-script"

/-- The variable `seqNumFile`: the file under `dataDir` that holds the highest
processed sequence number. -/
def seqNumFile : String := "seqnum"

/-- The variable `downloadDir`. -/
def downloadDir : String := "download"

/-! ## Sequence guard -/

/-- Modelled from the spec: the Sequence Guard is not in `src/main.go` (only
the name of its checkpoint file, `seqNumFile`, is).  Spec 4.3:
`shouldSkip(current)` returns true if `current <= checkpoint`; `checkpoint` is
the value stored in the checkpoint file. -/
def shouldSkip (checkpoint current : Int) : Bool :=
  decide (current ≤ checkpoint)

/-! ## What the `fmt` calls write -/

/-- The text of `fmt.Sprintf(format, operands...)` for a format made of plain
text and `%s` verbs, with one string operand for each verb.  Go's `fmt` has more
verbs, flags and error markers (`%!s(MISSING)`, `%!(NOVERB)`, `%!(EXTRA ...)`):
they are not modelled, and such a call gives `none`. -/
def sprintfChars : List Char → List String → Option (List Char)
  | [], [] => some []
  | [], _ :: _ => none
  | c :: cs, ops =>
    if c = '%' then
      match cs, ops with
      | d :: cs, a :: ops =>
        if d = 's' then (sprintfChars cs ops).map (fun r => a.data ++ r) else none
      | _, _ => none
    else (sprintfChars cs ops).map (fun r => c :: r)

/-- The text of `fmt.Sprintf`, see `sprintfChars`. -/
def Sprintf (format : String) (operands : List String) : Option String :=
  (sprintfChars format.data operands).map String.mk

/-- The text of `fmt.Sprintln` on string operands: the operands separated by
spaces, then a newline. -/
def Sprintln (operands : List String) : String :=
  " ".intercalate operands ++ "\n"

/-- The text one effect writes through `fmt`; effects that are not `fmt` calls
write nothing through `fmt`. -/
def Event.fmtText : Event → Option String
  | Event.printf format operands => Sprintf format operands
  | Event.println operands => some (Sprintln operands)
  | _ => some ""

/-- The text the `fmt` calls among the effects write, in order; `none` when one
of the calls is outside the modelled fragment of `fmt`. -/
def fmtOutput : List Event → Option String
  | [] => some ""
  | e :: es =>
    match e.fmtText, fmtOutput es with
    | some a, some b => some (a ++ b)
    | _, _ => none

/-! ## Observations on a run -/

/-- The status records reported (the records of the `reportStatus` calls) among
the effects, in order. -/
def statusRecords : List Event → List StatusRecord
  | [] => []
  | Event.reportStatus r :: es => r :: statusRecords es
  | _ :: es => statusRecords es

/-- Whether an effect is a handler invocation. -/
def Event.isHandler : Event → Bool
  | Event.handler _ _ _ => true
  | _ => false

/-- Whether an effect is a `fmt` call. -/
def Event.isFmt : Event → Bool
  | Event.printf _ _ => true
  | Event.println _ => true
  | _ => false

/-- The effects of `printUsage` for program name `prog`, iteration order
`order` and detailed version string `dvs`: the usage call, the verbs with one
delimiter call between each two, the empty `Println`, the version line. -/
def usageEvents (prog : String) (order : List String) (dvs : String) : List Event :=
  Event.printf "Usage: %s " [prog]
    :: ((order.map (fun k => Event.printf k [])).intersperse (Event.printf "|" [])
      ++ [Event.println [], Event.println [dvs]])

/-- The logging context `main` has built when it reports status and calls the
handler: time, version, operation and sequence number. -/
def handlerCtx (w : World) (cmd : Cmd) (hEnv : HandlerEnv) : LogCtx :=
  [("time", LogVal.timestamp), ("version", LogVal.str w.VersionString),
    ("operation", LogVal.str (w.ToLower cmd.name)), ("seq", LogVal.int hEnv.SeqNo)]

/-- The exit code of an outcome that is an exit. -/
def Outcome.exitCode {α : Type} : Outcome α → Option Int
  | Outcome.ret _ => none
  | Outcome.exit code => some code

/-- The value of an outcome that is a return. -/
def Outcome.value {α : Type} : Outcome α → Option α
  | Outcome.ret a => some a
  | Outcome.exit _ => none

/-- The process at its start: the command table as defined at process start,
no effect performed yet. -/
def Proc.start (t : CmdTable) : Proc := ⟨t, []⟩

/-- One run of the program: `main` from the start state. -/
def run (w : World) (t : CmdTable) : Proc × Option Int := main w (Proc.start t)

/-! ## Sample inputs -/

/-- A handler that succeeds. -/
def okHandler : LogCtx → HandlerEnv → HandlerResult :=
  fun _ _ => HandlerResult.returned none

/-- A handler that fails with the message "disk full". -/
def diskFullHandler : LogCtx → HandlerEnv → HandlerResult :=
  fun _ _ => HandlerResult.returned (some "disk full")

/-- A handler that panics: the Go runtime ends the process with exit code 2. -/
def panicHandler : LogCtx → HandlerEnv → HandlerResult :=
  fun _ _ => HandlerResult.noReturn (some 2)

/-- A handler that never returns and never ends the process. -/
def hangHandler : LogCtx → HandlerEnv → HandlerResult :=
  fun _ _ => HandlerResult.noReturn none

/-- A command table with two verbs. -/
def sampleTable : CmdTable where
  entries := [("install", ⟨"Install", okHandler⟩), ("enable", ⟨"Enable", diskFullHandler⟩)]
  nodup := by decide

/-- A command table whose handlers do not return. -/
def stuckTable : CmdTable where
  entries := [("update", ⟨"Update", panicHandler⟩), ("disable", ⟨"Disable", hangHandler⟩)]
  nodup := by decide

/-- A world with the given (non-empty) argument list and handler environment
result, in which every status write fails when `writesFail` is set. -/
def sampleWorld (prog : String) (rest : List String) (env : Except String HandlerEnv)
    (writesFail : Bool) : World where
  osArgs := prog :: rest
  osArgs_ne := List.cons_ne_nil prog rest
  VersionString := "1.0.0"
  DetailedVersionString := "1.0.0/git@abcdef"
  ToLower := String.toLower
  GetHandlerEnv := env
  saveStatus := fun _ => if writesFail then some "read-only file system" else none
  rangeOrder := fun ks => ks
  rangeOrder_perm := fun ks => List.Perm.refl ks

/-! ## Lemmas: effects and observations -/

theorem emit_cmds (p : Proc) (e : Event) : (p.emit e).cmds = p.cmds := rfl

theorem statusRecords_append (xs ys : List Event) :
    statusRecords (xs ++ ys) = statusRecords xs ++ statusRecords ys := by
  induction xs with
  | nil => rfl
  | cons x xs ih => cases x <;> simp [statusRecords, ih]

theorem statusRecords_of_isFmt (xs : List Event) (h : ∀ e ∈ xs, e.isFmt = true) :
    statusRecords xs = [] := by
  induction xs with
  | nil => rfl
  | cons x xs ih =>
    have hx := h x (List.mem_cons_self x xs)
    have hxs : ∀ e ∈ xs, e.isFmt = true := fun e he => h e (List.mem_cons_of_mem x he)
    cases x <;> simp [Event.isFmt] at hx <;> simp [statusRecords, ih hxs]

theorem mem_intersperse_imp {α : Type} (sep : α) (l : List α) (x : α)
    (h : x ∈ l.intersperse sep) : x = sep ∨ x ∈ l := by
  induction l with
  | nil => simp at h
  | cons a l ih =>
    cases l with
    | nil => right; simpa using h
    | cons b l =>
      rw [List.intersperse_cons₂] at h
      simp only [List.mem_cons] at h ih ⊢
      rcases h with h | h | h
      · exact Or.inr (Or.inl h)
      · exact Or.inl h
      · rcases ih h with h | h
        · exact Or.inl h
        · exact Or.inr (Or.inr h)

theorem usageEvents_isFmt (prog : String) (order : List String) (dvs : String) :
    ∀ e ∈ usageEvents prog order dvs, e.isFmt = true := by
  intro e he
  simp only [usageEvents, List.mem_cons, List.mem_append, List.mem_singleton,
    List.not_mem_nil, or_false] at he
  rcases he with h | h | h | h
  · subst h; rfl
  · rcases mem_intersperse_imp _ _ _ h with h | h
    · subst h; rfl
    · obtain ⟨k, _, hk⟩ := List.mem_map.mp h
      subst hk; rfl
  · subst h; rfl
  · subst h; rfl

/-! ## Lemmas: `printUsage` -/

theorem printUsageLoop_eq (ks : List String) : ∀ (i : Int) (p : Proc),
    i + (ks.length : Int) = p.cmds.len →
    printUsageLoop ks i p
      = ⟨p.cmds, p.events
          ++ (ks.map (fun k => Event.printf k [])).intersperse (Event.printf "|" [])⟩ := by
  induction ks with
  | nil => intro i p _; simp [printUsageLoop]
  | cons k ks ih =>
    intro i p h
    cases ks with
    | nil =>
      have hi : i = p.cmds.len - 1 := by
        simp only [List.length_singleton, Nat.cast_one] at h; omega
      simp [printUsageLoop, hi, emit_cmds, Proc.emit]
    | cons k2 ks =>
      have hi : i ≠ p.cmds.len - 1 := by
        simp only [List.length_cons, Nat.cast_add, Nat.cast_one] at h; omega
      have hrec := ih (i + 1) ((p.emit (Event.printf k [])).emit (Event.printf "|" []))
        (by simp only [List.length_cons, Nat.cast_add, Nat.cast_one, emit_cmds] at h ⊢; omega)
      rw [printUsageLoop]
      simp only [emit_cmds, hi, ne_eq, not_false_eq_true, if_true]
      rw [hrec]
      simp [Proc.emit]

theorem printUsage_eq (w : World) (args : List String) (p : Proc) :
    printUsage w args p
      = ⟨p.cmds, p.events ++ usageEvents (w.osArgs.head w.osArgs_ne)
          (w.rangeOrder p.cmds.keys) w.DetailedVersionString⟩ := by
  have hlen : (0 : Int) + ((w.rangeOrder p.cmds.keys).length : Int)
      = (p.emit (Event.printf "Usage: %s " [w.osArgs.head w.osArgs_ne])).cmds.len := by
    rw [(w.rangeOrder_perm p.cmds.keys).length_eq]
    simp [CmdTable.keys, CmdTable.len, emit_cmds]
  simp only [printUsage, emit_cmds]
  rw [printUsageLoop_eq _ _ _ hlen]
  simp [Proc.emit, usageEvents]

/-! ## Lemmas: `parseCmd` -/

theorem parseCmd_of_length_ne (w : World) (args : List String) (p : Proc)
    (h : w.osArgs.length ≠ 2) :
    parseCmd w args p
      = (⟨p.cmds, p.events ++ (usageEvents (w.osArgs.head w.osArgs_ne)
            (w.rangeOrder p.cmds.keys) w.DetailedVersionString
            ++ [Event.println ["Incorrect usage."]])⟩, Outcome.exit 1) := by
  simp [parseCmd, h, printUsage_eq, Proc.emit]

theorem parseCmd_of_unknown (w : World) (args : List String) (p : Proc) (prog op : String)
    (hargs : w.osArgs = [prog, op]) (hl : p.cmds.lookup op = none) :
    parseCmd w args p
      = (⟨p.cmds, p.events ++ (usageEvents prog (w.rangeOrder p.cmds.keys)
            w.DetailedVersionString
            ++ [Event.printf "Incorrect command: %q\n" [op]])⟩, Outcome.exit 1) := by
  obtain ⟨osArgs, ne, vs, dvs, lower, env, save, order, perm⟩ := w
  simp only at hargs
  subst hargs
  simp [parseCmd, hl, printUsage_eq, Proc.emit]

theorem parseCmd_of_known (w : World) (args : List String) (p : Proc) (prog op : String)
    (cmd : Cmd) (hargs : w.osArgs = [prog, op]) (hl : p.cmds.lookup op = some cmd) :
    parseCmd w args p = (p, Outcome.ret cmd) := by
  obtain ⟨osArgs, ne, vs, dvs, lower, env, save, order, perm⟩ := w
  simp only at hargs
  subst hargs
  simp [parseCmd, hl]

/-! ## Lemmas: `main`, one for each way a run can go -/

theorem reportStatus_eq (w : World) (ctx : LogCtx) (hEnv : HandlerEnv) (t : StatusType)
    (cmd : Cmd) (msg : String) (p : Proc) :
    ∃ logs : List Event, (∀ e ∈ logs, ∃ line, e = Event.log line) ∧
      reportStatus w ctx hEnv t cmd msg p
        = ⟨p.cmds, p.events ++ (Event.reportStatus ⟨t, cmd.name, msg, hEnv.SeqNo⟩ :: logs)⟩ := by
  unfold reportStatus
  cases hs : w.saveStatus ⟨t, cmd.name, msg, hEnv.SeqNo⟩ with
  | none => exact ⟨[], by simp, by simp [Proc.emit, hs]⟩
  | some e =>
    exact ⟨[Event.log (ctx ++ [("event", LogVal.str "failed to save handler status"),
      ("error", LogVal.err e)])], by simp, by simp [Proc.emit, hs]⟩

theorem statusRecords_of_logs (logs : List Event) (h : ∀ e ∈ logs, ∃ line, e = Event.log line) :
    statusRecords logs = [] := by
  induction logs with
  | nil => rfl
  | cons x xs ih =>
    obtain ⟨line, hx⟩ := h x (List.mem_cons_self x xs)
    subst hx
    simpa [statusRecords] using ih (fun e he => h e (List.mem_cons_of_mem _ he))

theorem main_of_length_ne (w : World) (p : Proc) (h : w.osArgs.length ≠ 2) :
    main w p
      = (⟨p.cmds, p.events ++ (usageEvents (w.osArgs.head w.osArgs_ne)
            (w.rangeOrder p.cmds.keys) w.DetailedVersionString
            ++ [Event.println ["Incorrect usage."]])⟩, some 1) := by
  simp [main, parseCmd_of_length_ne w w.osArgs p h]

theorem main_of_unknown (w : World) (p : Proc) (prog op : String)
    (hargs : w.osArgs = [prog, op]) (hl : p.cmds.lookup op = none) :
    main w p
      = (⟨p.cmds, p.events ++ (usageEvents prog (w.rangeOrder p.cmds.keys)
            w.DetailedVersionString
            ++ [Event.printf "Incorrect command: %q\n" [op]])⟩, some 1) := by
  simp [main, parseCmd_of_unknown w w.osArgs p prog op hargs hl]

theorem main_of_env_error (w : World) (p : Proc) (prog op : String) (cmd : Cmd) (err : String)
    (hargs : w.osArgs = [prog, op]) (hl : p.cmds.lookup op = some cmd)
    (henv : w.GetHandlerEnv = Except.error err) :
    main w p
      = (⟨p.cmds, p.events ++ [Event.getHandlerEnv,
          Event.log [("time", LogVal.timestamp), ("version", LogVal.str w.VersionString),
            ("operation", LogVal.str (w.ToLower cmd.name)),
            ("message", LogVal.str "failed to parse handlerenv"),
            ("error", LogVal.err err)]]⟩, some 1) := by
  simp [main, parseCmd_of_known w w.osArgs p prog op cmd hargs hl, henv, Proc.emit]

theorem main_of_handler_error (w : World) (p : Proc) (prog op : String) (cmd : Cmd)
    (hEnv : HandlerEnv) (e : String)
    (hargs : w.osArgs = [prog, op]) (hl : p.cmds.lookup op = some cmd)
    (henv : w.GetHandlerEnv = Except.ok hEnv)
    (hf : cmd.f (handlerCtx w cmd hEnv) hEnv = HandlerResult.returned (some e)) :
    ∃ logs1 logs2 : List Event,
      (∀ x ∈ logs1, ∃ line, x = Event.log line) ∧ (∀ x ∈ logs2, ∃ line, x = Event.log line) ∧
      main w p
        = (⟨p.cmds, p.events ++ ([Event.getHandlerEnv,
              Event.log (handlerCtx w cmd hEnv ++ [("event", LogVal.str "start")]),
              Event.reportStatus ⟨StatusType.StatusTransitioning, cmd.name, "", hEnv.SeqNo⟩]
            ++ logs1
            ++ [Event.handler cmd.name (handlerCtx w cmd hEnv) hEnv,
              Event.log (handlerCtx w cmd hEnv
                ++ [("event", LogVal.str "failed to handle"), ("error", LogVal.err e)]),
              Event.reportStatus ⟨StatusType.StatusError, cmd.name, e, hEnv.SeqNo⟩]
            ++ logs2)⟩, some 1) := by
  have hctx : handlerCtx w cmd hEnv
      = [("time", LogVal.timestamp), ("version", LogVal.str w.VersionString)]
        ++ [("operation", LogVal.str (w.ToLower cmd.name))]
        ++ [("seq", LogVal.int hEnv.SeqNo)] := rfl
  simp only [main, parseCmd_of_known w w.osArgs p prog op cmd hargs hl, henv, ← hctx, hf]
  obtain ⟨logs1, h1, e1⟩ := reportStatus_eq w (handlerCtx w cmd hEnv) hEnv
    StatusType.StatusTransitioning cmd ""
    ((p.emit Event.getHandlerEnv).emit
      (Event.log (handlerCtx w cmd hEnv ++ [("event", LogVal.str "start")])))
  rw [e1]
  obtain ⟨logs2, h2, e2⟩ := reportStatus_eq w (handlerCtx w cmd hEnv) hEnv
    StatusType.StatusError cmd e
    ((Proc.emit ⟨p.cmds, ((p.emit Event.getHandlerEnv).emit
        (Event.log (handlerCtx w cmd hEnv ++ [("event", LogVal.str "start")]))).events
        ++ (Event.reportStatus ⟨StatusType.StatusTransitioning, cmd.name, "", hEnv.SeqNo⟩ :: logs1)⟩
      (Event.handler cmd.name (handlerCtx w cmd hEnv) hEnv)).emit
      (Event.log (handlerCtx w cmd hEnv
        ++ [("event", LogVal.str "failed to handle"), ("error", LogVal.err e)])))
  refine ⟨logs1, logs2, h1, h2, ?_⟩
  simp only [emit_cmds] at e2 ⊢
  rw [e2]
  simp [Proc.emit]

theorem main_of_handler_ok (w : World) (p : Proc) (prog op : String) (cmd : Cmd)
    (hEnv : HandlerEnv)
    (hargs : w.osArgs = [prog, op]) (hl : p.cmds.lookup op = some cmd)
    (henv : w.GetHandlerEnv = Except.ok hEnv)
    (hf : cmd.f (handlerCtx w cmd hEnv) hEnv = HandlerResult.returned none) :
    ∃ logs1 logs2 : List Event,
      (∀ x ∈ logs1, ∃ line, x = Event.log line) ∧ (∀ x ∈ logs2, ∃ line, x = Event.log line) ∧
      main w p
        = (⟨p.cmds, p.events ++ ([Event.getHandlerEnv,
              Event.log (handlerCtx w cmd hEnv ++ [("event", LogVal.str "start")]),
              Event.reportStatus ⟨StatusType.StatusTransitioning, cmd.name, "", hEnv.SeqNo⟩]
            ++ logs1
            ++ [Event.handler cmd.name (handlerCtx w cmd hEnv) hEnv,
              Event.reportStatus ⟨StatusType.StatusSuccess, cmd.name, "", hEnv.SeqNo⟩]
            ++ logs2)⟩, some 0) := by
  have hctx : handlerCtx w cmd hEnv
      = [("time", LogVal.timestamp), ("version", LogVal.str w.VersionString)]
        ++ [("operation", LogVal.str (w.ToLower cmd.name))]
        ++ [("seq", LogVal.int hEnv.SeqNo)] := rfl
  simp only [main, parseCmd_of_known w w.osArgs p prog op cmd hargs hl, henv, ← hctx, hf]
  obtain ⟨logs1, h1, e1⟩ := reportStatus_eq w (handlerCtx w cmd hEnv) hEnv
    StatusType.StatusTransitioning cmd ""
    ((p.emit Event.getHandlerEnv).emit
      (Event.log (handlerCtx w cmd hEnv ++ [("event", LogVal.str "start")])))
  rw [e1]
  obtain ⟨logs2, h2, e2⟩ := reportStatus_eq w (handlerCtx w cmd hEnv) hEnv
    StatusType.StatusSuccess cmd ""
    (Proc.emit ⟨p.cmds, ((p.emit Event.getHandlerEnv).emit
        (Event.log (handlerCtx w cmd hEnv ++ [("event", LogVal.str "start")]))).events
        ++ (Event.reportStatus ⟨StatusType.StatusTransitioning, cmd.name, "", hEnv.SeqNo⟩ :: logs1)⟩
      (Event.handler cmd.name (handlerCtx w cmd hEnv) hEnv))
  refine ⟨logs1, logs2 ++ [Event.log (handlerCtx w cmd hEnv ++ [("event", LogVal.str "end")])],
    h1, ?_, ?_⟩
  · intro x hx
    rcases List.mem_append.mp hx with hx | hx
    · exact h2 x hx
    · exact ⟨_, List.mem_singleton.mp hx⟩
  · simp only [emit_cmds] at e2 ⊢
    rw [e2]
    simp [Proc.emit]

theorem main_of_handler_no_return (w : World) (p : Proc) (prog op : String) (cmd : Cmd)
    (hEnv : HandlerEnv) (ending : Option Int)
    (hargs : w.osArgs = [prog, op]) (hl : p.cmds.lookup op = some cmd)
    (henv : w.GetHandlerEnv = Except.ok hEnv)
    (hf : cmd.f (handlerCtx w cmd hEnv) hEnv = HandlerResult.noReturn ending) :
    ∃ logs1 : List Event, (∀ x ∈ logs1, ∃ line, x = Event.log line) ∧
      main w p
        = (⟨p.cmds, p.events ++ ([Event.getHandlerEnv,
              Event.log (handlerCtx w cmd hEnv ++ [("event", LogVal.str "start")]),
              Event.reportStatus ⟨StatusType.StatusTransitioning, cmd.name, "", hEnv.SeqNo⟩]
            ++ logs1
            ++ [Event.handler cmd.name (handlerCtx w cmd hEnv) hEnv])⟩, ending) := by
  have hctx : handlerCtx w cmd hEnv
      = [("time", LogVal.timestamp), ("version", LogVal.str w.VersionString)]
        ++ [("operation", LogVal.str (w.ToLower cmd.name))]
        ++ [("seq", LogVal.int hEnv.SeqNo)] := rfl
  simp only [main, parseCmd_of_known w w.osArgs p prog op cmd hargs hl, henv, ← hctx, hf]
  obtain ⟨logs1, h1, e1⟩ := reportStatus_eq w (handlerCtx w cmd hEnv) hEnv
    StatusType.StatusTransitioning cmd ""
    ((p.emit Event.getHandlerEnv).emit
      (Event.log (handlerCtx w cmd hEnv ++ [("event", LogVal.str "start")])))
  rw [e1]
  refine ⟨logs1, h1, ?_⟩
  simp [Proc.emit]

/-! ## Lemmas: the ways a run can go -/

theorem world_cases (w : World) (t : CmdTable) :
    w.osArgs.length ≠ 2 ∨
    (∃ prog op, w.osArgs = [prog, op] ∧ t.lookup op = none) ∨
    (∃ prog op cmd err, w.osArgs = [prog, op] ∧ t.lookup op = some cmd ∧
      w.GetHandlerEnv = Except.error err) ∨
    (∃ prog op cmd hEnv e, w.osArgs = [prog, op] ∧ t.lookup op = some cmd ∧
      w.GetHandlerEnv = Except.ok hEnv ∧
      cmd.f (handlerCtx w cmd hEnv) hEnv = HandlerResult.returned (some e)) ∨
    (∃ prog op cmd hEnv, w.osArgs = [prog, op] ∧ t.lookup op = some cmd ∧
      w.GetHandlerEnv = Except.ok hEnv ∧
      cmd.f (handlerCtx w cmd hEnv) hEnv = HandlerResult.returned none) ∨
    (∃ prog op cmd hEnv ending, w.osArgs = [prog, op] ∧ t.lookup op = some cmd ∧
      w.GetHandlerEnv = Except.ok hEnv ∧
      cmd.f (handlerCtx w cmd hEnv) hEnv = HandlerResult.noReturn ending) := by
  by_cases hlen : w.osArgs.length = 2
  · right
    obtain ⟨prog, op, hargs⟩ := List.length_eq_two.mp hlen
    cases hl : t.lookup op with
    | none => exact Or.inl ⟨prog, op, hargs, hl⟩
    | some cmd =>
      right
      cases henv : w.GetHandlerEnv with
      | error err => exact Or.inl ⟨prog, op, cmd, err, hargs, hl, rfl⟩
      | ok hEnv =>
        right
        cases hf : cmd.f (handlerCtx w cmd hEnv) hEnv with
        | returned err =>
          cases err with
          | some e => exact Or.inl ⟨prog, op, cmd, hEnv, e, hargs, hl, rfl, hf⟩
          | none => exact Or.inr (Or.inl ⟨prog, op, cmd, hEnv, hargs, hl, rfl, hf⟩)
        | noReturn ending =>
          exact Or.inr (Or.inr ⟨prog, op, cmd, hEnv, ending, hargs, hl, rfl, hf⟩)
  · exact Or.inl hlen

theorem statusRecords_cons_log (line : LogCtx) (xs : List Event) :
    statusRecords (Event.log line :: xs) = statusRecords xs := rfl

theorem statusRecords_cons_handler (name : String) (ctx : LogCtx) (hEnv : HandlerEnv)
    (xs : List Event) : statusRecords (Event.handler name ctx hEnv :: xs) = statusRecords xs :=
  rfl

theorem statusRecords_cons_getHandlerEnv (xs : List Event) :
    statusRecords (Event.getHandlerEnv :: xs) = statusRecords xs := rfl

theorem statusRecords_cons_reportStatus (r : StatusRecord) (xs : List Event) :
    statusRecords (Event.reportStatus r :: xs) = r :: statusRecords xs := rfl

theorem run_statuses_of_handler_error (w : World) (t : CmdTable)
    (prog op : String) (cmd : Cmd) (hEnv : HandlerEnv) (e : String)
    (hargs : w.osArgs = [prog, op]) (hcmd : t.lookup op = some cmd)
    (henv : w.GetHandlerEnv = Except.ok hEnv)
    (hf : cmd.f (handlerCtx w cmd hEnv) hEnv = HandlerResult.returned (some e)) :
    statusRecords (run w t).1.events
        = [⟨StatusType.StatusTransitioning, cmd.name, "", hEnv.SeqNo⟩,
           ⟨StatusType.StatusError, cmd.name, e, hEnv.SeqNo⟩]
      ∧ (run w t).2 = some 1 := by
  obtain ⟨logs1, logs2, h1, h2, hrun⟩ :=
    main_of_handler_error w (Proc.start t) prog op cmd hEnv e hargs hcmd henv hf
  unfold run
  rw [hrun]
  simp [Proc.start, statusRecords_append, statusRecords_cons_log, statusRecords_cons_handler,
    statusRecords_cons_getHandlerEnv, statusRecords_cons_reportStatus,
    statusRecords_of_logs _ h1, statusRecords_of_logs _ h2, statusRecords]

theorem run_statuses_of_handler_ok (w : World) (t : CmdTable)
    (prog op : String) (cmd : Cmd) (hEnv : HandlerEnv)
    (hargs : w.osArgs = [prog, op]) (hcmd : t.lookup op = some cmd)
    (henv : w.GetHandlerEnv = Except.ok hEnv)
    (hf : cmd.f (handlerCtx w cmd hEnv) hEnv = HandlerResult.returned none) :
    statusRecords (run w t).1.events
        = [⟨StatusType.StatusTransitioning, cmd.name, "", hEnv.SeqNo⟩,
           ⟨StatusType.StatusSuccess, cmd.name, "", hEnv.SeqNo⟩]
      ∧ (run w t).2 = some 0 := by
  obtain ⟨logs1, logs2, h1, h2, hrun⟩ :=
    main_of_handler_ok w (Proc.start t) prog op cmd hEnv hargs hcmd henv hf
  unfold run
  rw [hrun]
  simp [Proc.start, statusRecords_append, statusRecords_cons_log, statusRecords_cons_handler,
    statusRecords_cons_getHandlerEnv, statusRecords_cons_reportStatus,
    statusRecords_of_logs _ h1, statusRecords_of_logs _ h2, statusRecords]

theorem run_of_usage_error (w : World) (t : CmdTable)
    (h : w.osArgs.length ≠ 2 ∨ ∃ prog op, w.osArgs = [prog, op] ∧ t.lookup op = none) :
    ∃ msg : Event, msg.isFmt = true ∧
      run w t = (⟨t, usageEvents (w.osArgs.head w.osArgs_ne) (w.rangeOrder t.keys)
          w.DetailedVersionString ++ [msg]⟩, some 1) := by
  rcases h with h | ⟨prog, op, hargs, hl⟩
  · refine ⟨Event.println ["Incorrect usage."], rfl, ?_⟩
    rw [run, main_of_length_ne w (Proc.start t) h]
    simp [Proc.start]
  · refine ⟨Event.printf "Incorrect command: %q\n" [op], rfl, ?_⟩
    rw [run, main_of_unknown w (Proc.start t) prog op hargs hl]
    simp [Proc.start, hargs]

theorem run_isFmt_of_usage_error (w : World) (t : CmdTable)
    (h : w.osArgs.length ≠ 2 ∨ ∃ prog op, w.osArgs = [prog, op] ∧ t.lookup op = none) :
    ∀ x ∈ (run w t).1.events, x.isFmt = true := by
  obtain ⟨msg, hmsg, hrun⟩ := run_of_usage_error w t h
  rw [hrun]
  intro x hx
  rcases List.mem_append.mp hx with hx | hx
  · exact usageEvents_isFmt _ _ _ x hx
  · rw [List.mem_singleton.mp hx]; exact hmsg

theorem isHandler_false_of_isFmt (x : Event) (h : x.isFmt = true) : x.isHandler = false := by
  cases x <;> simp_all [Event.isFmt, Event.isHandler]

theorem run_of_env_error (w : World) (t : CmdTable) (prog op : String) (cmd : Cmd)
    (err : String) (hargs : w.osArgs = [prog, op]) (hcmd : t.lookup op = some cmd)
    (henv : w.GetHandlerEnv = Except.error err) :
    ∃ line, run w t = (⟨t, [Event.getHandlerEnv, Event.log line]⟩, some 1) := by
  refine ⟨[("time", LogVal.timestamp), ("version", LogVal.str w.VersionString),
    ("operation", LogVal.str (w.ToLower cmd.name)),
    ("message", LogVal.str "failed to parse handlerenv"), ("error", LogVal.err err)], ?_⟩
  rw [run, main_of_env_error w (Proc.start t) prog op cmd err hargs hcmd henv]
  simp [Proc.start]

theorem run_of_handled (w : World) (t : CmdTable) (prog op : String) (cmd : Cmd)
    (hEnv : HandlerEnv) (hargs : w.osArgs = [prog, op]) (hcmd : t.lookup op = some cmd)
    (henv : w.GetHandlerEnv = Except.ok hEnv) :
    ∃ post, (run w t).1.events
        = [Event.getHandlerEnv,
            Event.log (handlerCtx w cmd hEnv ++ [("event", LogVal.str "start")])]
          ++ Event.reportStatus ⟨StatusType.StatusTransitioning, cmd.name, "", hEnv.SeqNo⟩ :: post
      ∧ Event.handler cmd.name (handlerCtx w cmd hEnv) hEnv ∈ post := by
  cases hf : cmd.f (handlerCtx w cmd hEnv) hEnv with
  | returned err =>
    cases err with
    | some e =>
      obtain ⟨logs1, logs2, _, _, hrun⟩ :=
        main_of_handler_error w (Proc.start t) prog op cmd hEnv e hargs hcmd henv hf
      refine ⟨logs1 ++ ([Event.handler cmd.name (handlerCtx w cmd hEnv) hEnv,
        Event.log (handlerCtx w cmd hEnv
          ++ [("event", LogVal.str "failed to handle"), ("error", LogVal.err e)]),
        Event.reportStatus ⟨StatusType.StatusError, cmd.name, e, hEnv.SeqNo⟩] ++ logs2), ?_, ?_⟩
      · rw [run, hrun]
        simp [Proc.start]
      · simp
    | none =>
      obtain ⟨logs1, logs2, _, _, hrun⟩ :=
        main_of_handler_ok w (Proc.start t) prog op cmd hEnv hargs hcmd henv hf
      refine ⟨logs1 ++ ([Event.handler cmd.name (handlerCtx w cmd hEnv) hEnv,
        Event.reportStatus ⟨StatusType.StatusSuccess, cmd.name, "", hEnv.SeqNo⟩] ++ logs2),
        ?_, ?_⟩
      · rw [run, hrun]
        simp [Proc.start]
      · simp
  | noReturn ending =>
    obtain ⟨logs1, _, hrun⟩ :=
      main_of_handler_no_return w (Proc.start t) prog op cmd hEnv ending hargs hcmd henv hf
    refine ⟨logs1 ++ [Event.handler cmd.name (handlerCtx w cmd hEnv) hEnv], ?_, ?_⟩
    · rw [run, hrun]
      simp [Proc.start]
    · simp

theorem run_statuses_of_handler_no_return (w : World) (t : CmdTable)
    (prog op : String) (cmd : Cmd) (hEnv : HandlerEnv) (ending : Option Int)
    (hargs : w.osArgs = [prog, op]) (hcmd : t.lookup op = some cmd)
    (henv : w.GetHandlerEnv = Except.ok hEnv)
    (hf : cmd.f (handlerCtx w cmd hEnv) hEnv = HandlerResult.noReturn ending) :
    statusRecords (run w t).1.events
        = [⟨StatusType.StatusTransitioning, cmd.name, "", hEnv.SeqNo⟩]
      ∧ (run w t).2 = ending := by
  obtain ⟨logs1, h1, hrun⟩ :=
    main_of_handler_no_return w (Proc.start t) prog op cmd hEnv ending hargs hcmd henv hf
  unfold run
  rw [hrun]
  simp [Proc.start, statusRecords_append, statusRecords_cons_log, statusRecords_cons_handler,
    statusRecords_cons_getHandlerEnv, statusRecords_cons_reportStatus,
    statusRecords_of_logs _ h1, statusRecords]

theorem statusRecords_cons_subset (x : Event) (xs : List Event) (r : StatusRecord)
    (h : r ∈ statusRecords xs) : r ∈ statusRecords (x :: xs) := by
  cases x <;> simp_all [statusRecords]

theorem reportStatus_before_handler (rT : StatusRecord) (rest : List Event) :
    ∀ (front pre : List Event) (x : Event) (post : List Event),
      (∀ y ∈ front, y.isHandler = false) →
      front ++ Event.reportStatus rT :: rest = pre ++ x :: post →
      x.isHandler = true → rT ∈ statusRecords pre := by
  intro front
  induction front with
  | nil =>
    intro pre x post _ heq hx
    cases pre with
    | nil =>
      simp only [List.nil_append, List.cons.injEq] at heq
      rw [← heq.1] at hx
      simp [Event.isHandler] at hx
    | cons a pre =>
      simp only [List.nil_append, List.cons_append, List.cons.injEq] at heq
      rw [← heq.1]
      simp [statusRecords]
  | cons a front ih =>
    intro pre x post hfront heq hx
    cases pre with
    | nil =>
      simp only [List.nil_append, List.cons_append, List.cons.injEq] at heq
      have := hfront a (List.mem_cons_self a front)
      rw [heq.1, hx] at this
      exact absurd this (by decide)
    | cons b pre =>
      simp only [List.cons_append, List.cons.injEq] at heq
      exact statusRecords_cons_subset b pre rT
        (ih pre x post (fun y hy => hfront y (List.mem_cons_of_mem a hy)) heq.2 hx)

/-! ## Lemmas: the text of the `fmt` calls -/

theorem sprintfChars_plain (cs : List Char) (h : '%' ∉ cs) : sprintfChars cs [] = some cs := by
  induction cs with
  | nil => rfl
  | cons c cs ih =>
    have hc : c ≠ '%' := fun hc => h (by rw [hc]; exact List.mem_cons_self _ _)
    have hcs : '%' ∉ cs := fun hm => h (List.mem_cons_of_mem _ hm)
    simp [sprintfChars, hc, ih hcs]

theorem Sprintf_plain (k : String) (h : '%' ∉ k.data) : Sprintf k [] = some k := by
  simp [Sprintf, sprintfChars_plain k.data h]

theorem Sprintf_usage (prog : String) :
    Sprintf "Usage: %s " [prog] = some ("Usage: " ++ prog ++ " ") := by
  have hsp : sprintfChars [' '] [] = some [' '] := sprintfChars_plain _ (by decide)
  have hd : ("Usage: %s " : String).data
      = ['U', 's', 'a', 'g', 'e', ':', ' ', '%', 's', ' '] := rfl
  simp only [Sprintf, hd]
  simp [sprintfChars, hsp]
  apply String.ext
  simp

theorem fmtOutput_cons (e : Event) (es : List Event) (a b : String)
    (ha : e.fmtText = some a) (hb : fmtOutput es = some b) :
    fmtOutput (e :: es) = some (a ++ b) := by
  simp [fmtOutput, ha, hb]

theorem intercalate_go_append (s : String) (l : List String) :
    ∀ x acc : String, String.intercalate.go (x ++ acc) s l = x ++ String.intercalate.go acc s l := by
  induction l with
  | nil => intro x acc; rfl
  | cons b l ih =>
    intro x acc
    simp only [String.intercalate.go]
    rw [String.append_assoc x acc s, String.append_assoc x (acc ++ s) b]
    exact ih x (acc ++ s ++ b)

theorem intercalate_cons_cons (s a b : String) (l : List String) :
    s.intercalate (a :: b :: l) = a ++ s ++ s.intercalate (b :: l) := by
  simp only [String.intercalate, String.intercalate.go]
  exact intercalate_go_append s l (a ++ s) b

theorem fmtOutput_verbs (ks : List String) (h : ∀ k ∈ ks, '%' ∉ k.data) (rest : List Event)
    (b : String) (hrest : fmtOutput rest = some b) :
    fmtOutput ((ks.map (fun k => Event.printf k [])).intersperse (Event.printf "|" []) ++ rest)
      = some ("|".intercalate ks ++ b) := by
  induction ks with
  | nil => simpa [String.intercalate] using hrest
  | cons k ks ih =>
    have hk : (Event.printf k []).fmtText = some k :=
      Sprintf_plain k (h k (List.mem_cons_self k ks))
    have hks : ∀ x ∈ ks, '%' ∉ x.data := fun x hx => h x (List.mem_cons_of_mem k hx)
    cases ks with
    | nil =>
      simp only [List.map_cons, List.map_nil, List.intersperse_single, List.singleton_append]
      rw [fmtOutput_cons _ _ k b hk hrest]
      rfl
    | cons k2 ks =>
      have hbar : (Event.printf "|" []).fmtText = some "|" := by decide
      have ih2 := ih hks
      simp only [List.map_cons, List.intersperse_cons₂, List.cons_append] at ih2 ⊢
      rw [fmtOutput_cons _ _ k _ hk (fmtOutput_cons _ _ "|" _ hbar ih2)]
      rw [intercalate_cons_cons]
      simp only [String.append_assoc]

theorem length_intersperse {α : Type} (sep : α) (l : List α) :
    (l.intersperse sep).length = l.length + (l.length - 1) := by
  induction l with
  | nil => rfl
  | cons a l ih =>
    cases l with
    | nil => rfl
    | cons b l =>
      rw [List.intersperse_cons₂, List.length_cons, List.length_cons, ih]
      simp only [List.length_cons]
      omega

/-! ## Claims -/

/-- C1: when the verb is registered, the handler environment is obtained and
the handler of the command returns an error `e` to `main`, the status records of the run
are the Transitioning record followed by an Error record for the resolved
command whose message is exactly `e`, and the process ends with exit code 1,
which is not zero. -/
theorem main_handler_error_reports_error_and_exits_nonzero (w : World) (t : CmdTable)
    (prog op : String) (cmd : Cmd) (hEnv : HandlerEnv) (e : String)
    (hargs : w.osArgs = [prog, op]) (hcmd : t.lookup op = some cmd)
    (henv : w.GetHandlerEnv = Except.ok hEnv)
    (hf : cmd.f (handlerCtx w cmd hEnv) hEnv = HandlerResult.returned (some e)) :
    statusRecords (run w t).1.events
        = [⟨StatusType.StatusTransitioning, cmd.name, "", hEnv.SeqNo⟩,
           ⟨StatusType.StatusError, cmd.name, e, hEnv.SeqNo⟩]
      ∧ (run w t).2 = some 1 ∧ (run w t).2 ≠ some 0 := by
  obtain ⟨hrecs, hcode⟩ := run_statuses_of_handler_error w t prog op cmd hEnv e hargs hcmd henv hf
  exact ⟨hrecs, hcode, by rw [hcode]; decide⟩

/-- Witness for C1: the verb `enable` of the sample table has a handler that
fails with "disk full"; the run reports an Error record with message
"disk full" and exits with code 1. -/
theorem main_handler_error_witness :
    statusRecords (run (sampleWorld "cse" ["enable"] (Except.ok ⟨5⟩) false) sampleTable).1.events
        = [⟨StatusType.StatusTransitioning, "Enable", "", 5⟩,
           ⟨StatusType.StatusError, "Enable", "disk full", 5⟩]
      ∧ (run (sampleWorld "cse" ["enable"] (Except.ok ⟨5⟩) false) sampleTable).2 = some 1
      ∧ (run (sampleWorld "cse" ["enable"] (Except.ok ⟨5⟩) false) sampleTable).2 ≠ some 0 :=
  main_handler_error_reports_error_and_exits_nonzero
    (sampleWorld "cse" ["enable"] (Except.ok ⟨5⟩) false) sampleTable "cse" "enable"
    ⟨"Enable", diskFullHandler⟩ ⟨5⟩ "disk full" rfl rfl rfl rfl

/-- C2: when the verb is registered, the handler environment is obtained and
the handler of the command returns no error, the status records of the run are
the Transitioning record followed by a Success record for the resolved command
with an empty message, and the exit code is zero; this holds for every outcome
`w.saveStatus` of the status writes. -/
theorem main_handler_ok_reports_success_and_exits_zero (w : World) (t : CmdTable)
    (prog op : String) (cmd : Cmd) (hEnv : HandlerEnv)
    (hargs : w.osArgs = [prog, op]) (hcmd : t.lookup op = some cmd)
    (henv : w.GetHandlerEnv = Except.ok hEnv)
    (hf : cmd.f (handlerCtx w cmd hEnv) hEnv = HandlerResult.returned none) :
    statusRecords (run w t).1.events
        = [⟨StatusType.StatusTransitioning, cmd.name, "", hEnv.SeqNo⟩,
           ⟨StatusType.StatusSuccess, cmd.name, "", hEnv.SeqNo⟩]
      ∧ (run w t).2 = some 0 :=
  run_statuses_of_handler_ok w t prog op cmd hEnv hargs hcmd henv hf

/-- Witness for C2: the verb `install` of the sample table succeeds; in a world
where every status write fails, the run still reports Success and exits with
code zero. -/
theorem main_handler_ok_witness :
    (∀ r, (sampleWorld "cse" ["install"] (Except.ok ⟨7⟩) true).saveStatus r
        = some "read-only file system")
      ∧ statusRecords
          (run (sampleWorld "cse" ["install"] (Except.ok ⟨7⟩) true) sampleTable).1.events
        = [⟨StatusType.StatusTransitioning, "Install", "", 7⟩,
           ⟨StatusType.StatusSuccess, "Install", "", 7⟩]
      ∧ (run (sampleWorld "cse" ["install"] (Except.ok ⟨7⟩) true) sampleTable).2 = some 0 :=
  ⟨fun _ => rfl,
    main_handler_ok_reports_success_and_exits_zero
      (sampleWorld "cse" ["install"] (Except.ok ⟨7⟩) true) sampleTable "cse" "install"
      ⟨"Install", okHandler⟩ ⟨7⟩ rfl rfl rfl rfl⟩

/-- C5: when `os.Args` does not have exactly two elements, or has two and the
second is not a key of the command table, the effects of the run are the usage
text of `printUsage` followed by one more `fmt` call (the error message), the
exit code is 1 (not zero), no status record is reported, the handler
environment is not queried and no handler is invoked. -/
theorem main_usage_error_prints_usage_and_exits_nonzero (w : World) (t : CmdTable)
    (h : w.osArgs.length ≠ 2 ∨ ∃ prog op, w.osArgs = [prog, op] ∧ t.lookup op = none) :
    (∃ msg : Event, msg.isFmt = true ∧
        (run w t).1.events = usageEvents (w.osArgs.head w.osArgs_ne) (w.rangeOrder t.keys)
          w.DetailedVersionString ++ [msg])
      ∧ (run w t).2 = some 1 ∧ (run w t).2 ≠ some 0
      ∧ statusRecords (run w t).1.events = []
      ∧ Event.getHandlerEnv ∉ (run w t).1.events
      ∧ (∀ x ∈ (run w t).1.events, x.isHandler = false) := by
  obtain ⟨msg, hmsg, hrun⟩ := run_of_usage_error w t h
  have hfmt := run_isFmt_of_usage_error w t h
  rw [hrun] at hfmt ⊢
  refine ⟨⟨msg, hmsg, rfl⟩, rfl, by simp, statusRecords_of_isFmt _ hfmt, ?_, ?_⟩
  · intro hmem
    have := hfmt _ hmem
    simp [Event.isFmt] at this
  · intro x hx
    exact isHandler_false_of_isFmt x (hfmt x hx)

/-- Witness for C5: the verb "frobnicate" is not in the sample table. -/
theorem main_usage_error_witness :
    sampleTable.lookup "frobnicate" = none
      ∧ (run (sampleWorld "cse" ["frobnicate"] (Except.ok ⟨5⟩) false) sampleTable).1.events
        = [Event.printf "Usage: %s " ["cse"], Event.printf "install" [], Event.printf "|" [],
           Event.printf "enable" [], Event.println [], Event.println ["1.0.0/git@abcdef"],
           Event.printf "Incorrect command: %q\n" ["frobnicate"]]
      ∧ (run (sampleWorld "cse" ["frobnicate"] (Except.ok ⟨5⟩) false) sampleTable).2 ≠ some 0
      ∧ statusRecords
          (run (sampleWorld "cse" ["frobnicate"] (Except.ok ⟨5⟩) false) sampleTable).1.events
        = [] :=
  ⟨rfl, by decide,
    (main_usage_error_prints_usage_and_exits_nonzero
      (sampleWorld "cse" ["frobnicate"] (Except.ok ⟨5⟩) false) sampleTable
      (Or.inr ⟨"cse", "frobnicate", rfl, rfl⟩)).2.2.1,
    (main_usage_error_prints_usage_and_exits_nonzero
      (sampleWorld "cse" ["frobnicate"] (Except.ok ⟨5⟩) false) sampleTable
      (Or.inr ⟨"cse", "frobnicate", rfl, rfl⟩)).2.2.2.1⟩

/-- C6: when the verb is registered and `vmextension.GetHandlerEnv` returns an
error, the run queries the environment, logs the failure and exits with code 1
(not zero); it reports no status record of any kind and invokes no handler. -/
theorem main_env_error_exits_nonzero_without_status (w : World) (t : CmdTable)
    (prog op : String) (cmd : Cmd) (err : String)
    (hargs : w.osArgs = [prog, op]) (hcmd : t.lookup op = some cmd)
    (henv : w.GetHandlerEnv = Except.error err) :
    (run w t).2 = some 1 ∧ (run w t).2 ≠ some 0
      ∧ statusRecords (run w t).1.events = []
      ∧ (∀ x ∈ (run w t).1.events, x.isHandler = false)
      ∧ (∃ line, (run w t).1.events = [Event.getHandlerEnv, Event.log line]) := by
  have hrun := main_of_env_error w (Proc.start t) prog op cmd err hargs hcmd henv
  unfold run
  rw [hrun]
  refine ⟨rfl, by simp, by simp [Proc.start, statusRecords], ?_, ⟨_, by simp [Proc.start]; rfl⟩⟩
  intro x hx
  simp [Proc.start] at hx
  rcases hx with hx | hx <;> subst hx <;> rfl

/-- Witness for C6: the verb `install` with a handler environment that cannot
be parsed. -/
theorem main_env_error_witness :
    (run (sampleWorld "cse" ["install"] (Except.error "no handlerenv") false) sampleTable).2
        = some 1
      ∧ (run (sampleWorld "cse" ["install"] (Except.error "no handlerenv") false)
          sampleTable).2 ≠ some 0
      ∧ statusRecords (run (sampleWorld "cse" ["install"] (Except.error "no handlerenv") false)
          sampleTable).1.events = []
      ∧ (∀ x ∈ (run (sampleWorld "cse" ["install"] (Except.error "no handlerenv") false)
          sampleTable).1.events, x.isHandler = false)
      ∧ (∃ line, (run (sampleWorld "cse" ["install"] (Except.error "no handlerenv") false)
          sampleTable).1.events = [Event.getHandlerEnv, Event.log line]) :=
  main_env_error_exits_nonzero_without_status
    (sampleWorld "cse" ["install"] (Except.error "no handlerenv") false) sampleTable
    "cse" "install" ⟨"Install", okHandler⟩ "no handlerenv" rfl rfl rfl

/-- C3, as stated, fails: a handler that does not return to `main` leaves the
run with the Transitioning record and no terminal record.  With the verb
`update`, whose handler panics, the process ends with exit code 2; with the
verb `disable`, whose handler hangs, it never ends; in both runs the only
status record is the Transitioning one. -/
theorem main_handler_no_return_leaves_transitioning :
    statusRecords (run (sampleWorld "cse" ["update"] (Except.ok ⟨5⟩) false) stuckTable).1.events
        = [⟨StatusType.StatusTransitioning, "Update", "", 5⟩]
      ∧ (run (sampleWorld "cse" ["update"] (Except.ok ⟨5⟩) false) stuckTable).2 = some 2
      ∧ statusRecords
          (run (sampleWorld "cse" ["disable"] (Except.ok ⟨5⟩) false) stuckTable).1.events
        = [⟨StatusType.StatusTransitioning, "Disable", "", 5⟩]
      ∧ (run (sampleWorld "cse" ["disable"] (Except.ok ⟨5⟩) false) stuckTable).2 = none := by
  decide

/-- C3, amended: in every run that reports a Transitioning status record, the
status records reported are the Transitioning record first and then at most one
terminal record (Success or Error), so no Transitioning record follows a
terminal one; and when the handler the run calls returns to `main`, the
terminal record is there: the records are exactly the Transitioning record
followed by exactly one terminal record. -/
theorem main_transitioning_then_one_terminal_when_handler_returns (w : World) (t : CmdTable)
    (h : ∃ r ∈ statusRecords (run w t).1.events, r.status = StatusType.StatusTransitioning) :
    (∃ r0 : StatusRecord, r0.status = StatusType.StatusTransitioning
        ∧ (statusRecords (run w t).1.events = [r0]
          ∨ ∃ r1 : StatusRecord, statusRecords (run w t).1.events = [r0, r1]
            ∧ (r1.status = StatusType.StatusSuccess ∨ r1.status = StatusType.StatusError)))
      ∧ ((∀ (prog op : String) (cmd : Cmd) (hEnv : HandlerEnv),
            w.osArgs = [prog, op] → t.lookup op = some cmd → w.GetHandlerEnv = Except.ok hEnv →
            ∃ err, cmd.f (handlerCtx w cmd hEnv) hEnv = HandlerResult.returned err) →
          ∃ r0 r1 : StatusRecord, statusRecords (run w t).1.events = [r0, r1]
            ∧ r0.status = StatusType.StatusTransitioning
            ∧ (r1.status = StatusType.StatusSuccess ∨ r1.status = StatusType.StatusError)) := by
  rcases world_cases w t with hc | ⟨prog, op, hargs, hl⟩ | ⟨prog, op, cmd, err, hargs, hl, henv⟩
    | ⟨prog, op, cmd, hEnv, e, hargs, hl, henv, hf⟩ | ⟨prog, op, cmd, hEnv, hargs, hl, henv, hf⟩
    | ⟨prog, op, cmd, hEnv, ending, hargs, hl, henv, hf⟩
  · have hnil := statusRecords_of_isFmt _ (run_isFmt_of_usage_error w t (Or.inl hc))
    rw [hnil] at h
    simp at h
  · have hnil := statusRecords_of_isFmt _
      (run_isFmt_of_usage_error w t (Or.inr ⟨prog, op, hargs, hl⟩))
    rw [hnil] at h
    simp at h
  · obtain ⟨line, hrun⟩ := run_of_env_error w t prog op cmd err hargs hl henv
    rw [hrun] at h
    simp [statusRecords] at h
  · have hrecs := (run_statuses_of_handler_error w t prog op cmd hEnv e hargs hl henv hf).1
    exact ⟨⟨_, rfl, Or.inr ⟨_, hrecs, Or.inr rfl⟩⟩, fun _ => ⟨_, _, hrecs, rfl, Or.inr rfl⟩⟩
  · have hrecs := (run_statuses_of_handler_ok w t prog op cmd hEnv hargs hl henv hf).1
    exact ⟨⟨_, rfl, Or.inr ⟨_, hrecs, Or.inl rfl⟩⟩, fun _ => ⟨_, _, hrecs, rfl, Or.inl rfl⟩⟩
  · have hrecs :=
      (run_statuses_of_handler_no_return w t prog op cmd hEnv ending hargs hl henv hf).1
    refine ⟨⟨_, rfl, Or.inl hrecs⟩, fun hret => ?_⟩
    obtain ⟨err, herr⟩ := hret prog op cmd hEnv hargs hl henv
    rw [hf] at herr
    cases herr

/-- Witness for C3 amended: the run of the failing verb `enable` reports
Transitioning and its handler returns to `main`; the status records are
Transitioning then one terminal record. -/
theorem main_transitioning_witness :
    ∃ r0 r1 : StatusRecord,
      statusRecords (run (sampleWorld "cse" ["enable"] (Except.ok ⟨5⟩) false) sampleTable).1.events
        = [r0, r1]
      ∧ r0.status = StatusType.StatusTransitioning
      ∧ (r1.status = StatusType.StatusSuccess ∨ r1.status = StatusType.StatusError) :=
  (main_transitioning_then_one_terminal_when_handler_returns
    (sampleWorld "cse" ["enable"] (Except.ok ⟨5⟩) false) sampleTable
    ⟨⟨StatusType.StatusTransitioning, "Enable", "", 5⟩, by decide, rfl⟩).2
    (fun prog op cmd hEnv hargs hl _ => by
      have hop : op = "enable" := by
        have h2 : ["cse", "enable"] = [prog, op] := hargs
        simp only [List.cons.injEq, and_true] at h2
        exact h2.2.symm
      subst hop
      have hcmd : some (⟨"Enable", diskFullHandler⟩ : Cmd) = some cmd := hl
      cases hcmd
      exact ⟨some "disk full", rfl⟩)

/-- C4: when the verb is registered and the handler environment is obtained,
the effects of the run split into a part with no status record and no handler
invocation, then the record (Transitioning, resolved command, empty message),
then a part that contains the invocation of the handler of the command; no
assumption is made on what the handler returns, or on whether it returns.  And in every run, each handler
invocation comes after a reported Transitioning record. -/
theorem main_reports_transitioning_before_handler (w : World) (t : CmdTable) :
    (∀ (prog op : String) (cmd : Cmd) (hEnv : HandlerEnv),
        w.osArgs = [prog, op] → t.lookup op = some cmd → w.GetHandlerEnv = Except.ok hEnv →
        ∃ pre post : List Event,
          (run w t).1.events = pre
            ++ Event.reportStatus ⟨StatusType.StatusTransitioning, cmd.name, "", hEnv.SeqNo⟩ :: post
          ∧ statusRecords pre = []
          ∧ (∀ x ∈ pre, x.isHandler = false)
          ∧ Event.handler cmd.name (handlerCtx w cmd hEnv) hEnv ∈ post)
      ∧ (∀ (pre : List Event) (x : Event) (post : List Event),
          (run w t).1.events = pre ++ x :: post → x.isHandler = true →
          ∃ r ∈ statusRecords pre, r.status = StatusType.StatusTransitioning) := by
  have hfront : ∀ (cmd : Cmd) (hEnv : HandlerEnv),
      ∀ y ∈ [Event.getHandlerEnv,
        Event.log (handlerCtx w cmd hEnv ++ [("event", LogVal.str "start")])],
      y.isHandler = false := by
    intro cmd hEnv y hy
    simp only [List.mem_cons, List.mem_singleton, List.not_mem_nil, or_false] at hy
    rcases hy with hy | hy <;> subst hy <;> rfl
  constructor
  · intro prog op cmd hEnv hargs hl henv
    obtain ⟨post, hev, hmem⟩ := run_of_handled w t prog op cmd hEnv hargs hl henv
    exact ⟨_, post, hev, rfl, hfront cmd hEnv, hmem⟩
  · intro pre x post heq hx
    have hmem : x ∈ (run w t).1.events := by rw [heq]; simp
    have handled : ∀ (prog op : String) (cmd : Cmd) (hEnv : HandlerEnv),
        w.osArgs = [prog, op] → t.lookup op = some cmd → w.GetHandlerEnv = Except.ok hEnv →
        ∃ r ∈ statusRecords pre, r.status = StatusType.StatusTransitioning := by
      intro prog op cmd hEnv hargs hl henv
      obtain ⟨tail, hev, _⟩ := run_of_handled w t prog op cmd hEnv hargs hl henv
      rw [heq] at hev
      exact ⟨_, reportStatus_before_handler _ tail _ pre x post (hfront cmd hEnv) hev.symm hx, rfl⟩
    rcases world_cases w t with hc | ⟨prog, op, hargs, hl⟩
      | ⟨prog, op, cmd, err, hargs, hl, henv⟩
      | ⟨prog, op, cmd, hEnv, e, hargs, hl, henv, hf⟩
      | ⟨prog, op, cmd, hEnv, hargs, hl, henv, hf⟩
      | ⟨prog, op, cmd, hEnv, ending, hargs, hl, henv, hf⟩
    · have := isHandler_false_of_isFmt x (run_isFmt_of_usage_error w t (Or.inl hc) x hmem)
      rw [hx] at this
      exact absurd this (by decide)
    · have := isHandler_false_of_isFmt x
        (run_isFmt_of_usage_error w t (Or.inr ⟨prog, op, hargs, hl⟩) x hmem)
      rw [hx] at this
      exact absurd this (by decide)
    · obtain ⟨line, hrun⟩ := run_of_env_error w t prog op cmd err hargs hl henv
      rw [hrun] at hmem
      simp only [List.mem_cons, List.mem_singleton, List.not_mem_nil, or_false] at hmem
      rcases hmem with hm | hm <;> subst hm <;> simp [Event.isHandler] at hx
    · exact handled prog op cmd hEnv hargs hl henv
    · exact handled prog op cmd hEnv hargs hl henv
    · exact handled prog op cmd hEnv hargs hl henv

/-- Witness for C4: in the run of the failing verb `enable`, the record
(Transitioning, "Enable", empty message) comes before the handler invocation,
with no status record and no handler invocation before it. -/
theorem main_reports_transitioning_witness :
    ∃ pre post : List Event,
      (run (sampleWorld "cse" ["enable"] (Except.ok ⟨5⟩) false) sampleTable).1.events = pre
        ++ Event.reportStatus ⟨StatusType.StatusTransitioning, "Enable", "", 5⟩ :: post
      ∧ statusRecords pre = []
      ∧ (∀ x ∈ pre, x.isHandler = false)
      ∧ Event.handler "Enable" (handlerCtx (sampleWorld "cse" ["enable"] (Except.ok ⟨5⟩) false)
          ⟨"Enable", diskFullHandler⟩ ⟨5⟩) ⟨5⟩ ∈ post :=
  (main_reports_transitioning_before_handler
    (sampleWorld "cse" ["enable"] (Except.ok ⟨5⟩) false) sampleTable).1
    "cse" "enable" ⟨"Enable", diskFullHandler⟩ ⟨5⟩ rfl rfl rfl

/-- C7, as stated, fails: with `os.Args` holding only the program name,
`parseCmd` called on the two-element vector `["cse", "install"]`, whose second
element is a key of the table, prints the usage text and "Incorrect usage." and
exits with code 1; it returns no command. -/
theorem parseCmd_reads_osArgs_not_args :
    (["cse", "install"] : List String).length = 2
      ∧ (sampleTable.lookup "install").map Cmd.name = some "Install"
      ∧ (parseCmd (sampleWorld "cse" [] (Except.ok ⟨5⟩) false) ["cse", "install"]
          (Proc.start sampleTable)).2.exitCode = some 1
      ∧ ((parseCmd (sampleWorld "cse" [] (Except.ok ⟨5⟩) false) ["cse", "install"]
          (Proc.start sampleTable)).2.value.map Cmd.name) = none
      ∧ (parseCmd (sampleWorld "cse" [] (Except.ok ⟨5⟩) false) ["cse", "install"]
          (Proc.start sampleTable)).1.events
        = [Event.printf "Usage: %s " ["cse"], Event.printf "install" [], Event.printf "|" [],
           Event.printf "enable" [], Event.println [], Event.println ["1.0.0/git@abcdef"],
           Event.println ["Incorrect usage."]] := by
  refine ⟨rfl, rfl, rfl, rfl, ?_⟩
  decide

/-- C7, amended: when `os.Args` has exactly two elements and the second is a
key of the command table, `parseCmd(args)` returns, for every `args`, the
command registered under `os.Args[1]`, and the process state is the one it
started from: nothing printed, no exit, command table unchanged. -/
theorem parseCmd_registered_returns_command_without_effects (w : World) (args : List String)
    (p : Proc) (prog op : String) (cmd : Cmd)
    (hargs : w.osArgs = [prog, op]) (hcmd : p.cmds.lookup op = some cmd) :
    parseCmd w args p = (p, Outcome.ret cmd) :=
  parseCmd_of_known w args p prog op cmd hargs hcmd

/-- Witness for C7 amended: with `os.Args = ["cse", "install"]`, `parseCmd`
returns the command registered under `install` and leaves the state as it was. -/
theorem parseCmd_registered_witness :
    parseCmd (sampleWorld "cse" ["install"] (Except.ok ⟨5⟩) false) ["cse", "install"]
        (Proc.start sampleTable)
      = (Proc.start sampleTable, Outcome.ret ⟨"Install", okHandler⟩) :=
  parseCmd_registered_returns_command_without_effects
    (sampleWorld "cse" ["install"] (Except.ok ⟨5⟩) false) ["cse", "install"]
    (Proc.start sampleTable) "cse" "install" ⟨"Install", okHandler⟩ rfl rfl

/-- C8: for every checkpoint `c` and sequence number `n`, `shouldSkip` is true
when `n <= c` and false when `n > c`. -/
theorem shouldSkip_iff_le_checkpoint (c n : Int) :
    (n ≤ c → shouldSkip c n = true) ∧ (c < n → shouldSkip c n = false) := by
  unfold shouldSkip
  constructor
  · intro h; exact decide_eq_true h
  · intro h; exact decide_eq_false (by omega)

/-- Witness for C8: with checkpoint 5, sequence number 5 is skipped and
sequence number 6 is not. -/
theorem shouldSkip_witness : shouldSkip 5 5 = true ∧ shouldSkip 5 6 = false :=
  ⟨(shouldSkip_iff_le_checkpoint 5 5).1 (by decide),
    (shouldSkip_iff_le_checkpoint 5 6).2 (by decide)⟩

/-- C9: the code at the failing inputs.  On an argument list of the wrong
length and on an unregistered verb, `parseCmd` ends its effects with the error
message and exits with code 1, not 0. -/
theorem parseCmd_invalid_exits_with_code_one :
    (parseCmd (sampleWorld "cse" [] (Except.ok ⟨5⟩) false) ["cse"]
        (Proc.start sampleTable)).2.exitCode = some 1
      ∧ (parseCmd (sampleWorld "cse" [] (Except.ok ⟨5⟩) false) ["cse"]
        (Proc.start sampleTable)).1.events.getLast? = some (Event.println ["Incorrect usage."])
      ∧ (parseCmd (sampleWorld "cse" ["frobnicate"] (Except.ok ⟨5⟩) false) ["cse", "frobnicate"]
        (Proc.start sampleTable)).2.exitCode = some 1
      ∧ (parseCmd (sampleWorld "cse" ["frobnicate"] (Except.ok ⟨5⟩) false) ["cse", "frobnicate"]
        (Proc.start sampleTable)).1.events.getLast?
          = some (Event.printf "Incorrect command: %q\n" ["frobnicate"])
      ∧ (parseCmd (sampleWorld "cse" ["frobnicate"] (Except.ok ⟨5⟩) false) ["cse", "frobnicate"]
        (Proc.start sampleTable)).2.exitCode ≠ some 0 := by
  refine ⟨rfl, by decide, rfl, by decide, by decide⟩

/-- C10: for a non-empty command table whose verb names contain no `%`, the
effects of `printUsage` are the call printing "Usage: " and the program name,
then the verbs in the order `order` of the `range` loop (a permutation of the
keys of the table, each key once) with one delimiter call between each two,
then the empty `Println` and the `Println` of the detailed version string:
`n` verbs and `n - 1` delimiters.  The text written is
"Usage: <program name> " followed by the verbs joined with "|", a newline,
the detailed version string and a newline. -/
theorem printUsage_prints_usage_line_then_version (w : World) (args : List String) (p : Proc)
    (hne : p.cmds.entries ≠ []) (hpct : ∀ k ∈ p.cmds.keys, '%' ∉ k.data) :
    ∃ (evs : List Event) (order : List String),
      (printUsage w args p).events = p.events ++ evs
      ∧ order = w.rangeOrder p.cmds.keys
      ∧ order.Perm p.cmds.keys ∧ order.Nodup ∧ order ≠ []
      ∧ evs = usageEvents (w.osArgs.head w.osArgs_ne) order w.DetailedVersionString
      ∧ evs.length = 3 + (p.cmds.keys.length + (p.cmds.keys.length - 1))
      ∧ fmtOutput evs = some ("Usage: " ++ w.osArgs.head w.osArgs_ne ++ " "
          ++ "|".intercalate order ++ "\n" ++ w.DetailedVersionString ++ "\n") := by
  have hperm := w.rangeOrder_perm p.cmds.keys
  have hpct2 : ∀ k ∈ w.rangeOrder p.cmds.keys, '%' ∉ k.data :=
    fun k hk => hpct k (hperm.mem_iff.mp hk)
  have htail : fmtOutput [Event.println [], Event.println [w.DetailedVersionString]]
      = some ("\n" ++ (w.DetailedVersionString ++ "\n")) := by
    simp [fmtOutput, Event.fmtText, Sprintln, String.intercalate, String.intercalate.go]
  refine ⟨_, _, by rw [printUsage_eq], rfl, hperm, hperm.nodup_iff.mpr p.cmds.nodup, ?_, rfl,
    ?_, ?_⟩
  · intro h0
    have hlen := hperm.length_eq
    rw [h0] at hlen
    cases hents : p.cmds.entries with
    | nil => exact hne hents
    | cons a l => simp [CmdTable.keys, hents] at hlen
  · simp only [usageEvents, List.length_cons, List.length_append, length_intersperse,
      List.length_map, List.length_nil, hperm.length_eq]
    omega
  · have husage : (Event.printf "Usage: %s " [w.osArgs.head w.osArgs_ne]).fmtText
        = some ("Usage: " ++ w.osArgs.head w.osArgs_ne ++ " ") := Sprintf_usage _
    simp only [usageEvents]
    rw [fmtOutput_cons _ _ _ _ husage (fmtOutput_verbs _ hpct2 _ _ htail)]
    simp only [String.append_assoc]

/-- Witness for C10: the sample table has the two verbs `install` and
`enable`; `printUsage` writes "Usage: cse install|enable", a newline, the
detailed version string and a newline. -/
theorem printUsage_witness :
    ∃ (evs : List Event) (order : List String),
      (printUsage (sampleWorld "cse" ["frobnicate"] (Except.ok ⟨5⟩) false) []
          (Proc.start sampleTable)).events = (Proc.start sampleTable).events ++ evs
      ∧ order = ["install", "enable"]
      ∧ order.Perm (Proc.start sampleTable).cmds.keys ∧ order.Nodup ∧ order ≠ []
      ∧ evs = usageEvents "cse" order "1.0.0/git@abcdef"
      ∧ evs.length = 3 + (2 + (2 - 1))
      ∧ fmtOutput evs = some ("Usage: " ++ "cse" ++ " "
          ++ "|".intercalate order ++ "\n" ++ "1.0.0/git@abcdef" ++ "\n") :=
  printUsage_prints_usage_line_then_version
    (sampleWorld "cse" ["frobnicate"] (Except.ok ⟨5⟩) false) [] (Proc.start sampleTable)
    (List.cons_ne_nil _ _) (by decide)

end CustomScript
